import Mathlib

/-!
Verification of the path-addressing core of the `mobius` form-state library.

The source under scrutiny (TypeScript) consists of:
* `src/packages/core/src/lib/utils/_update.ts` : `_update`, the immutable write;
* `src/unnamed/part_000`                       : `_get`, the read with default;
* `deepSet` (third document of `src/packages/core/src/lib/index.ts`), the
  in-place write;
* `src/packages/core/src/lib/proxy.ts`         : `keysProxy`/`innerKeysProxy`,
  the key-only capture accessor;
* `createDraftProxy`/`createInnerProxy` (second document of
  `src/packages/core/src/lib/index.ts`), the read-or-write capture accessor.

Data model.  Following the spec (section 3) a target is a finite tree of
mapping nodes (string-keyed, insertion ordered), sequence nodes and primitive
leaves.  JavaScript arrays may also carry non-index string properties, which
the write path of the library can create (e.g. writing member `b` below an
array node), so a sequence node carries both its element list and a list of
named properties.  Reference sharing, prototype-inherited accessors
(`__proto__`), the special `length` property, string character indexing,
symbol keys and floating-point numbers are outside the model; numbers are
modelled as integers, which covers every value the claims mention.  Assignment
to a property of a primitive throws a `TypeError` in strict mode (the library
ships as ES modules); operations that would throw are modelled as `none`.
-/

namespace Mobius

mutual

/-- A JavaScript value as used by the library: `undefined`, `null`, booleans,
numbers, strings, arrays (element list plus named non-index properties) and
plain objects (insertion-ordered association lists of fields). -/
inductive JSValue where
  | vundefined : JSValue
  | vnull : JSValue
  | vbool (b : Bool) : JSValue
  | vnum (n : Int) : JSValue
  | vstr (s : String) : JSValue
  | varr (elems : JSList) (fields : JSFields) : JSValue
  | vobj (fields : JSFields) : JSValue
deriving DecidableEq

/-- A list of array elements. -/
inductive JSList where
  | nil : JSList
  | cons (v : JSValue) (rest : JSList) : JSList
deriving DecidableEq

/-- An insertion-ordered association list of string-keyed fields. -/
inductive JSFields where
  | nil : JSFields
  | cons (k : String) (v : JSValue) (rest : JSFields) : JSFields
deriving DecidableEq

end

namespace JSValue

/-- `Object.prototype.toString.call(value) === "[object Object]"`, i.e. the
source's `_isRecord`. -/
def isRecord : JSValue → Bool
  | vobj _ => true
  | _ => false

/-- `Array.isArray`. -/
def isArray : JSValue → Bool
  | varr _ _ => true
  | _ => false

/-- The source's `_isPrimitive`: neither a record nor an array. -/
def isPrim (v : JSValue) : Bool := !v.isRecord && !v.isArray

/-- A container: a record or an array (exactly the non-primitives). -/
def isContainer (v : JSValue) : Bool := v.isRecord || v.isArray

/-- `value === null || value === undefined` (nullish). -/
def isNullish : JSValue → Bool
  | vundefined => true
  | vnull => true
  | _ => false

/-- JavaScript truthiness: `undefined`, `null`, `false`, `0` and the empty
string are falsy; containers are always truthy. -/
def truthy : JSValue → Bool
  | vundefined => false
  | vnull => false
  | vbool b => b
  | vnum n => n != 0
  | vstr s => s != ""
  | varr _ _ => true
  | vobj _ => true

end JSValue

/-! ## The numeric-string predicate `!isNaN(+s)`

All three writers and both capture proxies decide "does this key look
numeric" with `isNaN(+key)` (JavaScript string-to-number coercion).  A string
converts to a non-`NaN` number iff, after trimming whitespace, it is empty
(value `0`), an optionally signed decimal literal or `Infinity`, or an
unsigned hexadecimal / octal / binary literal. -/

/-- JavaScript whitespace accepted by string-to-number coercion (the common
ASCII forms plus no-break space; other exotic Unicode spaces are out of
scope of the model). -/
def isJsSpace (c : Char) : Bool :=
  c = ' ' || c = '\t' || c = '\n' || c = '\r' ||
  c = Char.ofNat 11 || c = Char.ofNat 12 || c = Char.ofNat 160

/-- An exponent suffix: either nothing, or `e`/`E`, an optional sign and at
least one digit, consuming the whole rest of the string. -/
def isExpTail (cs : List Char) : Bool :=
  match cs with
  | [] => true
  | c :: rest =>
    (c = 'e' || c = 'E') &&
    (let rest2 := match rest with
      | s :: r => if s = '+' || s = '-' then r else s :: r
      | [] => []
     let p := rest2.span Char.isDigit
     !p.1.isEmpty && p.2.isEmpty)

/-- What may follow the leading digits of a decimal literal: an optional
`.`-plus-digits part, then an optional exponent. -/
def isDecimalTail (cs : List Char) : Bool :=
  match cs with
  | '.' :: rest =>
    let p := rest.span Char.isDigit
    isExpTail p.2
  | _ => isExpTail cs

/-- An unsigned decimal literal: `digits [. digits] [exp]` or `. digits
[exp]`. -/
def isUnsignedDecimal (cs : List Char) : Bool :=
  match cs with
  | '.' :: rest =>
    let p := rest.span Char.isDigit
    !p.1.isEmpty && isExpTail p.2
  | _ =>
    let p := cs.span Char.isDigit
    !p.1.isEmpty && isDecimalTail p.2

/-- An unsigned numeric literal: `Infinity` or an unsigned decimal. -/
def isUnsignedNumeric (cs : List Char) : Bool :=
  cs = "Infinity".toList || isUnsignedDecimal cs

/-- Hexadecimal, octal or binary integer literals (`0x…`, `0o…`, `0b…`);
signs are not allowed on these. -/
def isNonDecimalIntLit (cs : List Char) : Bool :=
  match cs with
  | '0' :: x :: rest =>
    if x = 'x' || x = 'X' then
      let p := rest.span (fun c => c.isDigit || (c ≥ 'a' && c ≤ 'f') || (c ≥ 'A' && c ≤ 'F'))
      !p.1.isEmpty && p.2.isEmpty
    else if x = 'o' || x = 'O' then
      let p := rest.span (fun c => c ≥ '0' && c ≤ '7')
      !p.1.isEmpty && p.2.isEmpty
    else if x = 'b' || x = 'B' then
      let p := rest.span (fun c => c = '0' || c = '1')
      !p.1.isEmpty && p.2.isEmpty
    else false
  | _ => false

/-- The trimmed body of a numeric string: empty (coerces to `0`), an
optionally signed decimal/`Infinity` literal, or a radix-prefixed integer
literal. -/
def isNumericBody (cs : List Char) : Bool :=
  match cs with
  | [] => true
  | c :: rest =>
    if c = '+' || c = '-' then isUnsignedNumeric rest
    else isNonDecimalIntLit (c :: rest) || isUnsignedNumeric (c :: rest)

/-- `!isNaN(+s)` — the numeric-key predicate every component of the library
uses to pick between creating a sequence (`[]`) and a mapping (`{}`). -/
def jsIsNumericString (s : String) : Bool :=
  isNumericBody (((s.toList.dropWhile isJsSpace).reverse.dropWhile isJsSpace).reverse)

/-- The empty container created for a missing/overwritten intermediate node:
`isNaN(+next) ? {} : []` — a sequence if the next key is numeric, else a
mapping.  Shared (with identical wording in the sources) by `_update`,
`deepSet`, `innerKeysProxy` and `createInnerProxy`. -/
def containerFor (next : String) : JSValue :=
  if jsIsNumericString next then .varr .nil .nil else .vobj .nil

/-! ## Property access on the value model

JavaScript array indexing via a string key uses the canonical array-index
strings: all digits, no leading zero, value below `2^32 - 1`.  Any other
string key on an array addresses a named property. -/

/-- The value of an all-digit decimal string, `none` otherwise. -/
def decimalNat? (s : String) : Option Nat :=
  if !s.toList.isEmpty && s.toList.all Char.isDigit then
    some (s.toList.foldl (fun a c => a * 10 + (c.toNat - 48)) 0)
  else none

/-- Canonical array-index strings. -/
def isArrayIndex (s : String) : Bool :=
  match decimalNat? s with
  | none => false
  | some n => decide (n < 4294967294) && (s.length = 1 || s.toList.headD '0' ≠ '0')

/-- Look a key up in a field list; first match wins, absent keys read as
`undefined`. -/
def lookupField (fs : JSFields) (k : String) : JSValue :=
  match fs with
  | .nil => .vundefined
  | .cons k1 v rest => if k1 = k then v else lookupField rest k

/-- Replace the value at a key, or append the field if the key is absent
(JavaScript insertion order). -/
def setField (fs : JSFields) (k : String) (v : JSValue) : JSFields :=
  match fs with
  | .nil => .cons k v .nil
  | .cons k1 v1 rest => if k1 = k then .cons k1 v rest else .cons k1 v1 (setField rest k v)

/-- The element at an index, `undefined` when out of range (holes were padded
with explicit `undefined`s at write time, matching what reads observe). -/
def getElem? (es : JSList) (i : Nat) : JSValue :=
  match es, i with
  | .nil, _ => .vundefined
  | .cons v _, 0 => v
  | .cons _ rest, Nat.succ n => getElem? rest n

/-- Set the element at an index, padding any gap with `undefined` (JavaScript
holes read back as `undefined`). -/
def setElemPad (es : JSList) (i : Nat) (v : JSValue) : JSList :=
  match es, i with
  | .nil, 0 => .cons v .nil
  | .nil, Nat.succ n => .cons .vundefined (setElemPad .nil n v)
  | .cons _ rest, 0 => .cons v rest
  | .cons e rest, Nat.succ n => .cons e (setElemPad rest n v)

/-- `base[key]` for a string key: field lookup on objects; index or named
property on arrays; `undefined` on primitives.  (Prototype-inherited
properties, `length` and string character access are outside the model.) -/
def getProp : JSValue → String → JSValue
  | .vobj fs, k => lookupField fs k
  | .varr es fs, k =>
    if isArrayIndex k then getElem? es ((decimalNat? k).getD 0) else lookupField fs k
  | _, _ => .vundefined

/-- `base[key] = v` for a container base.  On a non-container this returns the
base unchanged; in JavaScript strict mode such an assignment throws, and every
caller in this development guards for that case and reports `none` itself. -/
def setProp : JSValue → String → JSValue → JSValue
  | .vobj fs, k, v => .vobj (setField fs k v)
  | .varr es fs, k, v =>
    if isArrayIndex k then .varr (setElemPad es ((decimalNat? k).getD 0) v) fs
    else .varr es (setField fs k v)
  | o, _, _ => o

/-! ## Path splitting

`_get` runs `path.split(regexp).filter(Boolean)`; with a lazy one-or-more
character class this is equivalent to splitting on every run of delimiter
characters and dropping the empty segments.  `_update` runs
`path.match(/[^.[\]]+/g) || []`, i.e. it collects the maximal runs of
non-delimiter characters — the same "split on runs, drop empties" with
delimiter set `.`, `[`, `]`, which is also exactly the canonicalization rule
of spec section 3. -/

/-- Split a character list on runs of delimiter characters, dropping empty
segments; `acc` holds the (reversed) current segment. -/
def splitDropGo (p : Char → Bool) : List Char → List Char → List String
  | [], acc => if acc.isEmpty then [] else [String.mk acc.reverse]
  | c :: cs, acc =>
    if p c then
      if acc.isEmpty then splitDropGo p cs []
      else String.mk acc.reverse :: splitDropGo p cs []
    else splitDropGo p cs (c :: acc)

/-- Split a string on runs of delimiter characters, dropping empty
segments. -/
def splitDrop (p : Char → Bool) (s : String) : List String :=
  splitDropGo p s.toList []

/-- Delimiters of `_get`'s first split attempt, `/[,[\]]+?/` — note: no dot. -/
def isDelimFirst (c : Char) : Bool := c = ',' || c = '[' || c = ']'

/-- Delimiters of `_get`'s second split attempt, `/[,[\].]+?/`. -/
def isDelimSecond (c : Char) : Bool := c = ',' || c = '[' || c = ']' || c = '.'

/-- Delimiters of `_update`'s `/[^.[\]]+/g` — equal to the canonicalization
rule of spec section 3 (split on runs of `.`, `[`, `]`). -/
def isDelimCanon (c : Char) : Bool := c = '.' || c = '[' || c = ']'

/-! ## The read: `_get` (src/unnamed/part_000) -/

/-- The `reduce` inside `_get`'s `travel`: walk a key list from `obj`,
propagating a nullish node unchanged and descending with `res[key]`
otherwise. -/
def travel (obj : JSValue) (keys : List String) : JSValue :=
  keys.foldl (fun res key => if res.isNullish then res else getProp res key) obj

/-- `_get(obj, path, defaultValue)`: try the comma/bracket split first; if its
walk produces a falsy value, retry with the comma/bracket/dot split; return
`defaultValue` when the final result is `undefined` or is the original
target itself.  Total — no exception is thrown and `obj` is never
mutated. -/
def jsGet (obj : JSValue) (path : String) (defaultValue : JSValue) : JSValue :=
  let r1 := travel obj (splitDrop isDelimFirst path)
  let result := if r1.truthy then r1 else travel obj (splitDrop isDelimSecond path)
  if result = .vundefined ∨ result = obj then defaultValue else result

/-- Modelled from the spec's words (sections 3 and 4.1), for comparison with
`jsGet`: canonicalize the path by one single split on runs of `.`, `[`, `]`
dropping empty segments, walk that key list, and apply the same
default-value rule. -/
def canonRead (obj : JSValue) (path : String) (defaultValue : JSValue) : JSValue :=
  let result := travel obj (splitDrop isDelimCanon path)
  if result = .vundefined ∨ result = obj then defaultValue else result

/-- The default-value rule shared by `_get`'s tail and the claims' round-trip
reading: walk an (already canonical) key list and fall back to the default
when the result is `undefined` or the walk never left the root. -/
def readKeys (obj : JSValue) (keys : List String) (defaultValue : JSValue) : JSValue :=
  let result := travel obj keys
  if result = .vundefined ∨ result = obj then defaultValue else result

/-! ## The immutable write: `_update`
(src/packages/core/src/lib/utils/_update.ts)

`_update` first takes `structuredClone(obj ?? {})`; on the tree model the
clone of a value is the value itself, and the pure recursion below rebuilds
the clone along the traversed path exactly as the in-place loop mutates it.
A path is either a string (split with `/[^.[\]]+/g`) or an explicit key
list. -/

/-- `obj ?? {}`. -/
def coalesceRoot (obj : JSValue) : JSValue :=
  if obj = .vundefined ∨ obj = .vnull then .vobj .nil else obj

/-- The traversal loop of `_update`: walk all keys but the last, replacing any
primitive intermediate (`_isPrimitive`) with a fresh empty container chosen
by the next key, then assign at the last key.  `none` models the strict-mode
`TypeError` of assigning a property on a primitive (only possible at the
root, since created intermediates are containers). -/
def updateGo (prop : JSValue) (keys : List String) (value : JSValue) : Option JSValue :=
  match keys with
  | [] => some prop
  | [last] => if prop.isPrim then none else some (setProp prop last value)
  | sec :: next :: rest =>
    if prop.isPrim then none
    else
      let child0 := getProp prop sec
      let child := if child0.isPrim then containerFor next else child0
      (updateGo child (next :: rest) value).map (fun r => setProp prop sec r)

/-- `_update(obj, path, value)`: clone `obj ?? {}`, split a string path on
`/[^.[\]]+/g` (an explicit list is used as-is), return the clone unchanged if
there is no last key or it is empty (`!lastSection`), otherwise run the
traversal loop and assign at the last key. -/
def jsUpdate (obj : JSValue) (path : String ⊕ List String) (value : JSValue) :
    Option JSValue :=
  let copy := coalesceRoot obj
  let splitPath := match path with
    | .inl s => splitDrop isDelimCanon s
    | .inr l => l
  match splitPath.getLast? with
  | none => some copy
  | some last => if last = "" then some copy else updateGo copy splitPath value

/-! ## The in-place write: `deepSet`
(third document of src/packages/core/src/lib/index.ts)

`deepSet` splits only on `.` (keeping empty segments) and converts numeric
segments to numbers (`isNaN(+k) ? k : +k`); a number used as a property key
is converted back to its decimal string, so only the final key string
matters.  The conversion is modelled exactly on the fragment where the
number-to-string round trip is expressible without floating point: segments
that are not numeric stay themselves; canonical decimal integers below
`2^53` round-trip to themselves; the empty segment coerces to `0` and hence
to the key `"0"`.  Other numeric spellings (hex, exponents, leading zeros,
huge values) would require float formatting and make the model return
`none`; no claim depends on them. -/

/-- `path.split(".")`: split on every single dot, keeping empty segments
(never the empty list). -/
def dotSplitGo : List Char → List Char → List String
  | [], acc => [String.mk acc.reverse]
  | c :: cs, acc =>
    if c = '.' then String.mk acc.reverse :: dotSplitGo cs []
    else dotSplitGo cs (c :: acc)

/-- `path.split(".")` on a string. -/
def dotSplit (s : String) : List String := dotSplitGo s.toList []

/-- The property-key string a path segment becomes after `deepSet`'s
`isNaN(+k) ? k : +k` conversion (see the module comment for the modelled
fragment). -/
def segKey (s : String) : Option String :=
  if jsIsNumericString s then
    if s = "" then some "0"
    else match decimalNat? s with
      | some n =>
        if (s = "0" ∨ s.toList.headD '0' ≠ '0') ∧ n < 9007199254740992 then some s
        else none
      | none => none
  else some s

/-- The loop of `deepSet`: `current[keys[i]] ??= !isNaN(+keys[i+1]) ? [] : {}`
replaces only nullish intermediates (a primitive non-nullish intermediate
makes the next step assign on a primitive — a strict-mode `TypeError`,
modelled as `none`), then the final key is assigned. -/
def deepSetGo (cur : JSValue) (keys : List String) (value : JSValue) : Option JSValue :=
  match keys with
  | [] => some cur
  | [last] => if cur.isContainer then some (setProp cur last value) else none
  | k :: next :: rest =>
    if cur.isContainer then
      let child0 := getProp cur k
      let child := if child0.isNullish then containerFor next else child0
      (deepSetGo child (next :: rest) value).map (fun r => setProp cur k r)
    else none

/-- `deepSet(obj = Object.create(null), path, value)`: split the path on `.`,
convert numeric segments to numbers, walk with `??=` placeholder creation and
assign at the last key, returning the mutated root (the fresh empty object
when `obj` was `undefined`). -/
def deepSet (obj : JSValue) (path : String) (value : JSValue) : Option JSValue :=
  let root := if obj = .vundefined then .vobj .nil else obj
  match (dotSplit path).mapM segKey with
  | none => none
  | some keys => deepSetGo root keys value

/-! ## The key-capture proxies

Both accessors are proxies around `() => {}`.  The root proxy's `get` returns
an inner proxy holding the seed object and the one-element chain; the inner
proxy's `get` runs `object[lastKey] ??= isNaN(+prop) ? {} : []` (placeholder
creation) and recurses with the child node and the extended chain.  The two
sources' `get` handlers are word-for-word the same logic:
`innerKeysProxy` (src/packages/core/src/lib/proxy.ts) and `createInnerProxy`
(second document of src/packages/core/src/lib/index.ts); they differ only in
the terminal `apply`.  A proxy state is modelled as the current seed tree
plus the recorded chain; child node references are rebuilt functionally
(`setProp` write-back), which on trees coincides with in-place mutation.
`none` models a strict-mode `TypeError`: reading a property of a nullish
node, or `??=`-assigning / value-assigning a property of a primitive. -/

/-- One chain of `get` accesses on an inner proxy: `prev` is the node the
proxy holds, `lastKey` its recorded last key, `rest` the property names still
to be accessed.  Returns the updated `prev` subtree (placeholders
created). -/
def captureGo (prev : JSValue) (lastKey : String) (rest : List String) :
    Option JSValue :=
  match rest with
  | [] => some prev
  | prop :: rest2 =>
    if prev.isNullish then none
    else
      let child0 := getProp prev lastKey
      if child0.isNullish then
        if prev.isContainer then
          (captureGo (containerFor prop) prop rest2).map (fun c => setProp prev lastKey c)
        else none
      else (captureGo child0 prop rest2).map (fun c => setProp prev lastKey c)

/-- Accessing the chain on the root accessor (`keysProxy(y)` or
`createDraftProxy(y)` — the root `get` creates no placeholder): the seed tree
after all placeholder creation. -/
def captureChain (y : JSValue) (chain : List String) : Option JSValue :=
  match chain with
  | [] => some y
  | k :: rest => captureGo y k rest

/-- `keysProxy` (key-only variant): access the chain, then invoke — the
terminal `apply` ignores its arguments, mutates nothing and returns the
recorded `properties`.  Result: the seed tree after placeholder creation,
and the returned key chain. -/
def keysInvoke (y : JSValue) (chain : List String) : Option (JSValue × List String) :=
  match chain with
  | [] => none
  | k :: rest => (captureGo y k rest).map (fun y2 => (y2, chain))

/-- What the read-or-write accessor's terminal `apply` returned: either the
recorded key chain (after a write) or the value read at the chain. -/
inductive ApplyRes where
  | keys (ks : List String) : ApplyRes
  | value (v : JSValue) : ApplyRes
deriving DecidableEq

/-- Access-and-invoke for the read-or-write accessor `createInnerProxy`
(second document of src/packages/core/src/lib/index.ts): walk the chain with
placeholder creation, then at the terminal `apply`, if the argument is
defined assign it at `prev[lastKey]` and return the key chain, else return
`prev[lastKey]` without assigning.  `ks` accumulates the recorded chain. -/
def innerInvoke (prev : JSValue) (ks : List String) (lastKey : String)
    (rest : List String) (arg : JSValue) : Option (JSValue × ApplyRes) :=
  match rest with
  | [] =>
    if arg = .vundefined then
      if prev.isNullish then none
      else some (prev, .value (getProp prev lastKey))
    else
      if prev.isContainer then some (setProp prev lastKey arg, .keys ks)
      else none
  | prop :: rest2 =>
    if prev.isNullish then none
    else
      let child0 := getProp prev lastKey
      if child0.isNullish then
        if prev.isContainer then
          (innerInvoke (containerFor prop) (ks ++ [prop]) prop rest2 arg).map
            (fun p => (setProp prev lastKey p.1, p.2))
        else none
      else
        (innerInvoke child0 (ks ++ [prop]) prop rest2 arg).map
          (fun p => (setProp prev lastKey p.1, p.2))

/-- Build a draft accessor over `y`, access the chain and invoke it with
`arg` (`undefined` for a no-argument invocation).  Result: the seed tree
after the whole interaction and what the invocation returned. -/
def draftInvoke (y : JSValue) (chain : List String) (arg : JSValue) :
    Option (JSValue × ApplyRes) :=
  match chain with
  | [] => none
  | k :: rest => innerInvoke y [k] k rest arg

/-- No primitive non-nullish value obstructs the intermediate steps of `keys`
in `t`: each intermediate either is nullish (both writers then create the
same fresh container) or is itself a container in which the rest of the path
is unobstructed.  This is the condition under which the `??=`-style writer
and the replace-primitives writer behave alike. -/
def noPrimObstruction (t : JSValue) : List String → Bool
  | [] => true
  | [_] => true
  | k :: next :: rest =>
    let c := getProp t k
    if c.isNullish then true
    else c.isContainer && noPrimObstruction c (next :: rest)

/-- Induction along the spine of a field list (the mutual recursor
specialised to a single motive). -/
def JSFields.spineInduction {motive : JSFields → Prop} (h0 : motive .nil)
    (h1 : ∀ k v rest, motive rest → motive (.cons k v rest)) :
    (fs : JSFields) → motive fs
  | .nil => h0
  | .cons k v rest => h1 k v rest (spineInduction h0 h1 rest)

/-- Induction along the spine of an element list. -/
def JSList.spineInduction {motive : JSList → Prop} (h0 : motive .nil)
    (h1 : ∀ v rest, motive rest → motive (.cons v rest)) :
    (es : JSList) → motive es
  | .nil => h0
  | .cons v rest => h1 v rest (spineInduction h0 h1 rest)

/-! ## Basic lemmas about the value model -/

theorem isContainer_eq_not_isPrim (v : JSValue) : v.isContainer = !v.isPrim := by
  cases v <;> rfl

theorem not_isNullish_of_isContainer {v : JSValue} (h : v.isContainer = true) :
    v.isNullish = false := by
  cases v <;> simp_all [JSValue.isContainer, JSValue.isRecord, JSValue.isArray,
    JSValue.isNullish]

theorem isContainer_setProp {v : JSValue} (h : v.isContainer = true)
    (k : String) (x : JSValue) : (setProp v k x).isContainer = true := by
  cases v with
  | vobj fs => rfl
  | varr es fs =>
    simp only [setProp]
    split <;> rfl
  | vundefined => exact absurd h (by simp [JSValue.isContainer, JSValue.isRecord, JSValue.isArray])
  | vnull => exact absurd h (by simp [JSValue.isContainer, JSValue.isRecord, JSValue.isArray])
  | vbool b => exact absurd h (by simp [JSValue.isContainer, JSValue.isRecord, JSValue.isArray])
  | vnum n => exact absurd h (by simp [JSValue.isContainer, JSValue.isRecord, JSValue.isArray])
  | vstr s => exact absurd h (by simp [JSValue.isContainer, JSValue.isRecord, JSValue.isArray])

theorem isContainer_of_getProp_not_nullish {v : JSValue} {k : String}
    (h : (getProp v k).isNullish = false) : v.isContainer = true := by
  cases v <;> simp_all [getProp, JSValue.isNullish, JSValue.isContainer,
    JSValue.isRecord, JSValue.isArray]

theorem lookupField_setField (fs : JSFields) (k : String) (x : JSValue) :
    lookupField (setField fs k x) k = x := by
  induction fs using JSFields.spineInduction with
  | h0 => simp [setField, lookupField]
  | h1 k1 v rest ih =>
    by_cases h : k1 = k <;> simp [setField, lookupField, h, ih]

theorem getElem?_setElemPad (i : Nat) (es : JSList) (x : JSValue) :
    getElem? (setElemPad es i x) i = x := by
  induction i generalizing es with
  | zero => cases es <;> simp [setElemPad, getElem?]
  | succ n ih => cases es <;> simp [setElemPad, getElem?, ih]

theorem getProp_setProp {v : JSValue} (h : v.isContainer = true)
    (k : String) (x : JSValue) : getProp (setProp v k x) k = x := by
  cases v with
  | vobj fs => simp [setProp, getProp, lookupField_setField]
  | varr es fs =>
    by_cases hk : isArrayIndex k <;>
      simp [setProp, getProp, hk, lookupField_setField, getElem?_setElemPad]
  | vundefined => exact absurd h (by simp [JSValue.isContainer, JSValue.isRecord, JSValue.isArray])
  | vnull => exact absurd h (by simp [JSValue.isContainer, JSValue.isRecord, JSValue.isArray])
  | vbool b => exact absurd h (by simp [JSValue.isContainer, JSValue.isRecord, JSValue.isArray])
  | vnum n => exact absurd h (by simp [JSValue.isContainer, JSValue.isRecord, JSValue.isArray])
  | vstr s => exact absurd h (by simp [JSValue.isContainer, JSValue.isRecord, JSValue.isArray])

theorem travel_nil (obj : JSValue) : travel obj [] = obj := rfl

theorem travel_cons (obj : JSValue) (k : String) (ks : List String) :
    travel obj (k :: ks) = travel (if obj.isNullish then obj else getProp obj k) ks := rfl

/-! ## Size lemmas

A value written into a container sits strictly inside the result, so it can
never be the result itself; this is the tree counterpart of the JavaScript
fact that the cloned root is a fresh reference distinct from the written
value, which the read's `result === obj` test compares against. -/

theorem sizeOf_lt_setField (fs : JSFields) (k : String) (x : JSValue) :
    sizeOf x < sizeOf (setField fs k x) := by
  induction fs using JSFields.spineInduction with
  | h0 => simp [setField]; omega
  | h1 k1 v rest ih =>
    by_cases h : k1 = k <;> simp [setField, h] <;> omega

theorem sizeOf_lt_setElemPad (i : Nat) (es : JSList) (x : JSValue) :
    sizeOf x < sizeOf (setElemPad es i x) := by
  induction i generalizing es with
  | zero => cases es <;> simp [setElemPad] <;> omega
  | succ n ih =>
    cases es with
    | nil =>
      have := ih JSList.nil
      simp [setElemPad]
      omega
    | cons e rest =>
      have := ih rest
      simp [setElemPad]
      omega

theorem sizeOf_lt_setProp {v : JSValue} (h : v.isContainer = true)
    (k : String) (x : JSValue) : sizeOf x < sizeOf (setProp v k x) := by
  cases v with
  | vobj fs =>
    have := sizeOf_lt_setField fs k x
    simp [setProp]
    omega
  | varr es fs =>
    by_cases hk : isArrayIndex k
    · have := sizeOf_lt_setElemPad ((decimalNat? k).getD 0) es x
      simp [setProp, hk]
      omega
    · have := sizeOf_lt_setField fs k x
      simp [setProp, hk]
      omega
  | vundefined => exact absurd h (by simp [JSValue.isContainer, JSValue.isRecord, JSValue.isArray])
  | vnull => exact absurd h (by simp [JSValue.isContainer, JSValue.isRecord, JSValue.isArray])
  | vbool b => exact absurd h (by simp [JSValue.isContainer, JSValue.isRecord, JSValue.isArray])
  | vnum n => exact absurd h (by simp [JSValue.isContainer, JSValue.isRecord, JSValue.isArray])
  | vstr s => exact absurd h (by simp [JSValue.isContainer, JSValue.isRecord, JSValue.isArray])

/-! ## The traversal loop of `_update` always succeeds on a container root,
and the walk along the written path reads the written value back. -/

theorem updateGo_run (keys : List String) :
    ∀ prop v : JSValue, keys ≠ [] → prop.isContainer = true →
    ∃ r, updateGo prop keys v = some r ∧ r.isContainer = true ∧
      travel r keys = v ∧ sizeOf v < sizeOf r := by
  induction keys with
  | nil => intro prop v hne _; exact absurd rfl hne
  | cons sec rest ih =>
    intro prop v _ hcont
    have hprim : prop.isPrim = false := by
      rw [isContainer_eq_not_isPrim] at hcont
      simpa using hcont
    cases rest with
    | nil =>
      have hrc := isContainer_setProp hcont sec v
      refine ⟨setProp prop sec v, by simp [updateGo, hprim], hrc, ?_,
        sizeOf_lt_setProp hcont sec v⟩
      rw [travel_cons, if_neg (by simp [not_isNullish_of_isContainer hrc]),
        getProp_setProp hcont sec v, travel_nil]
    | cons next rest2 =>
      set child0 := getProp prop sec with hc0
      set child : JSValue := if child0.isPrim then containerFor next else child0 with hchild
      have hchildc : child.isContainer = true := by
        rw [hchild]
        by_cases hp : child0.isPrim = true
        · simp only [hp, if_true]
          by_cases hn : jsIsNumericString next <;>
            simp [containerFor, hn, JSValue.isContainer, JSValue.isRecord, JSValue.isArray]
        · simp only [Bool.not_eq_true] at hp
          rw [if_neg (by simp [hp]), isContainer_eq_not_isPrim, hp]
          rfl
      obtain ⟨r2, hr2, hr2c, hr2t, hr2s⟩ := ih child v (by simp) hchildc
      have hrc := isContainer_setProp hcont sec r2
      refine ⟨setProp prop sec r2, ?_, hrc, ?_, ?_⟩
      · simp [updateGo, hprim, ← hc0, ← hchild, hr2]
      · rw [travel_cons, if_neg (by simp [not_isNullish_of_isContainer hrc]),
          getProp_setProp hcont sec r2]
        exact hr2t
      · have := sizeOf_lt_setProp hcont sec r2
        omega

/-! ## Split lemmas for the canonicalization comparison -/

theorem splitDropGo_congr (p q : Char → Bool) :
    ∀ (cs : List Char) (acc : List Char),
    (∀ c ∈ cs, p c = q c) → splitDropGo p cs acc = splitDropGo q cs acc := by
  intro cs
  induction cs with
  | nil => intro acc _; rfl
  | cons c cs2 ih =>
    intro acc h
    have hc : p c = q c := h c (by simp)
    have hrest : ∀ c2 ∈ cs2, p c2 = q c2 := fun c2 hc2 => h c2 (by simp [hc2])
    simp only [splitDropGo, hc]
    by_cases hq : q c = true
    · simp [hq, ih [] hrest]
    · simp only [Bool.not_eq_true] at hq
      simp [hq, ih (c :: acc) hrest]

/-- On a comma-free string the second split of `_get` agrees with the
canonical split of spec section 3. -/
theorem splitDrop_second_eq_canon {s : String} (h : ∀ c ∈ s.toList, ¬ c = ',') :
    splitDrop isDelimSecond s = splitDrop isDelimCanon s := by
  unfold splitDrop
  apply splitDropGo_congr
  intro c hc
  have hnc : ¬ c = ',' := h c hc
  simp [isDelimSecond, isDelimCanon, hnc, Bool.or_comm, Bool.or_left_comm, Bool.or_assoc]

/-! ## Claim theorems -/

/-- Claim C1 (round-trip, confirmed): for every target whose root (after the
`obj ?? {}` coalescing of `_update`) is a container, every canonical key list
of length at least one, and every value, `_update` succeeds and reading the
written path back — walking the very same key list with `_get`'s traversal
and default rule — returns the written value exactly.  (A non-container root
makes the write itself fault, the programmer error of spec section 7.) -/
theorem claimC1_round_trip (T V : JSValue) (ks : List String)
    (hT : (coalesceRoot T).isContainer = true)
    (hne : ks ≠ []) (hlast : ks.getLast? ≠ some "") :
    jsUpdate T (.inr ks) V ≠ none ∧
    readKeys ((jsUpdate T (.inr ks) V).getD .vundefined) ks .vundefined = V := by
  obtain ⟨r, hr, hrc, hrt, hrs⟩ := updateGo_run ks (coalesceRoot T) V hne hT
  have hju : jsUpdate T (.inr ks) V = updateGo (coalesceRoot T) ks V := by
    simp only [jsUpdate]
    cases hgl : ks.getLast? with
    | none => exact absurd (List.getLast?_eq_none_iff.mp hgl) hne
    | some last =>
      have hl : ¬ last = "" := by
        intro h
        exact hlast (by rw [hgl, h])
      simp [hl]
  rw [hju, hr]
  refine ⟨by simp, ?_⟩
  simp only [Option.getD_some, readKeys, hrt]
  by_cases hv : V = JSValue.vundefined
  · simp [hv]
  · have hvr : ¬ V = r := by
      intro h
      rw [h] at hrs
      omega
    simp [hv, hvr]

/-- Witness for C1 at `T = {}`, `P = ["a"]`, `V = 7`. -/
theorem claimC1_round_trip_witness :
    ((["a"] : List String) ≠ [] ∧
      (coalesceRoot (JSValue.vobj .nil)).isContainer = true) ∧
    (jsUpdate (JSValue.vobj .nil) (.inr ["a"]) (JSValue.vnum 7) ≠ none ∧
      readKeys ((jsUpdate (JSValue.vobj .nil) (.inr ["a"]) (JSValue.vnum 7)).getD .vundefined)
        ["a"] .vundefined = JSValue.vnum 7) :=
  ⟨⟨by decide, by decide⟩,
    claimC1_round_trip (JSValue.vobj .nil) (JSValue.vnum 7) ["a"]
      (by decide) (by decide) (by decide)⟩

/-- Claim C2 counterexample: the claim classifies `"01"` as non-numeric, but
the shared predicate `!isNaN(+key)` accepts `"01"` (JavaScript coerces it to
the number `1`), so the code classifies it as numeric. -/
theorem claimC2_counterexample : jsIsNumericString "01" = true := by decide

/-- Claim C2 (corrected): the shared numeric-key predicate classifies `"0"`
and also `"01"` as numeric (sequence-inducing) and `"a1"` as non-numeric
(mapping-inducing), shown through the container each key induces. -/
theorem claimC2_numeric_key_classification :
    containerFor "0" = JSValue.varr .nil .nil ∧
    containerFor "01" = JSValue.varr .nil .nil ∧
    containerFor "a1" = JSValue.vobj .nil := by decide

/-- Claim C3 counterexample: the claim asserts that also the mutable variant
(`deepSet`) replaces the primitive at `a`, yielding `{a: {b: "x"}}`; in fact
`deepSet`'s `??=` keeps the non-nullish `5` and the subsequent assignment on
a primitive faults (strict-mode `TypeError`, modelled as `none`). -/
theorem claimC3_counterexample :
    deepSet (JSValue.vobj (.cons "a" (JSValue.vnum 5) .nil)) "a.b" (JSValue.vstr "x") ≠
      some (JSValue.vobj (.cons "a" (JSValue.vobj (.cons "b" (JSValue.vstr "x") .nil)) .nil)) := by
  decide

/-- Claim C3 (corrected): in the immutable variant `_update`, an intermediate
primitive is replaced with a fresh container — writing any value to `"a.b"`
on `{a: 5}` yields `{a: {b: V}}`, discarding the `5`; the mutable variant
`deepSet` instead faults on the primitive intermediate. -/
theorem claimC3_overwrite_on_conflict :
    (∀ V, jsUpdate (JSValue.vobj (.cons "a" (JSValue.vnum 5) .nil)) (.inl "a.b") V =
        some (JSValue.vobj (.cons "a" (JSValue.vobj (.cons "b" V .nil)) .nil))) ∧
    (∀ V, deepSet (JSValue.vobj (.cons "a" (JSValue.vnum 5) .nil)) "a.b" V = none) :=
  ⟨fun _ => rfl, fun _ => rfl⟩

/-- Claim C4 counterexample: on a target owning a member whose name itself
contains a dot, `_get`'s first split (which does not split on dots) resolves
the whole path as one key and its truthy result is returned, while the
canonical section-3 walk resolves the nested member — the two disagree. -/
theorem claimC4_counterexample :
    jsGet (JSValue.vobj (.cons "a.b" (JSValue.vnum 1)
        (.cons "a" (JSValue.vobj (.cons "b" (JSValue.vnum 2) .nil)) .nil)))
      "a.b" (JSValue.vnum 0) = JSValue.vnum 1 ∧
    canonRead (JSValue.vobj (.cons "a.b" (JSValue.vnum 1)
        (.cons "a" (JSValue.vobj (.cons "b" (JSValue.vnum 2) .nil)) .nil)))
      "a.b" (JSValue.vnum 0) = JSValue.vnum 2 := by decide

/-- Claim C4 (corrected): `_get` equals the walk over the single canonical
section-3 key list whenever the path is comma-free and the first
(comma/bracket-only) parse produces a falsy value; in general the first
parse can return a different truthy value (see the counterexample). -/
theorem claimC4_canonicalization (obj : JSValue) (path : String) (D : JSValue)
    (hcomma : ∀ c ∈ path.toList, ¬ c = ',')
    (hfalsy : (travel obj (splitDrop isDelimFirst path)).truthy = false) :
    jsGet obj path D = canonRead obj path D := by
  simp [jsGet, canonRead, hfalsy, splitDrop_second_eq_canon hcomma]

/-- Witness for C4 at target `{a: {b: 0}}`, path `"a.b"`: the first parse
walks key `"a.b"` to `undefined` (falsy), so the canonical walk decides the
result. -/
theorem claimC4_canonicalization_witness :
    ((∀ c ∈ "a.b".toList, ¬ c = ',') ∧
      (travel (JSValue.vobj (.cons "a" (JSValue.vobj (.cons "b" (JSValue.vnum 0) .nil)) .nil))
        (splitDrop isDelimFirst "a.b")).truthy = false) ∧
    jsGet (JSValue.vobj (.cons "a" (JSValue.vobj (.cons "b" (JSValue.vnum 0) .nil)) .nil))
        "a.b" (JSValue.vnum 9) =
      canonRead (JSValue.vobj (.cons "a" (JSValue.vobj (.cons "b" (JSValue.vnum 0) .nil)) .nil))
        "a.b" (JSValue.vnum 9) :=
  ⟨⟨by decide, by decide⟩,
    claimC4_canonicalization _ _ _ (by decide) (by decide)⟩

/-- Claim C6 (key-capture fidelity, confirmed): on the key-only accessor over
a fresh empty object, accessing `user`, `name`, `first` and invoking returns
exactly that chain (the seed gains the placeholders `{user: {name: {}}}`);
on the read-write accessor over `{}`, the same chain invoked with `"Ann"`
leaves the target `{user: {name: {first: "Ann"}}}` and returns the chain. -/
theorem claimC6_key_capture_fidelity :
    keysInvoke (JSValue.vobj .nil) ["user", "name", "first"] =
      some (JSValue.vobj (.cons "user" (JSValue.vobj (.cons "name" (JSValue.vobj .nil) .nil)) .nil),
        ["user", "name", "first"]) ∧
    draftInvoke (JSValue.vobj .nil) ["user", "name", "first"] (JSValue.vstr "Ann") =
      some (JSValue.vobj (.cons "user" (JSValue.vobj (.cons "name"
          (JSValue.vobj (.cons "first" (JSValue.vstr "Ann") .nil)) .nil)) .nil),
        .keys ["user", "name", "first"]) := by decide

/-- Claim C7 (container inference, confirmed): for every value, writing to
`"a.0.b"` on `{}` produces `{a: [{b: V}]}` (a sequence at `a` because the
next key `"0"` is numeric) and writing to `"a.b"` on `{}` produces
`{a: {b: V}}`. -/
theorem claimC7_container_inference :
    (∀ V, jsUpdate (JSValue.vobj .nil) (.inl "a.0.b") V =
        some (JSValue.vobj (.cons "a"
          (JSValue.varr (.cons (JSValue.vobj (.cons "b" V .nil)) .nil) .nil) .nil))) ∧
    (∀ V, jsUpdate (JSValue.vobj .nil) (.inl "a.b") V =
        some (JSValue.vobj (.cons "a" (JSValue.vobj (.cons "b" V .nil)) .nil))) :=
  ⟨fun _ => rfl, fun _ => rfl⟩

/-- Claim C8 (default fallback without exception, confirmed): reading a
missing path returns the supplied default — concretely for `{}` with
`"a.b.c"` and for an undefined target with `"x"`, and in general whenever
both walks of `_get` resolve to `undefined`.  `_get` is a total pure
function of the model: no exception, no mutation of the target. -/
theorem claimC8_default_fallback :
    (∀ D, jsGet (JSValue.vobj .nil) "a.b.c" D = D) ∧
    (∀ D, jsGet JSValue.vundefined "x" D = D) ∧
    (∀ (t : JSValue) (p : String) (D : JSValue),
      travel t (splitDrop isDelimFirst p) = JSValue.vundefined →
      travel t (splitDrop isDelimSecond p) = JSValue.vundefined →
      jsGet t p D = D) := by
  refine ⟨fun _ => rfl, fun _ => rfl, fun t p D h1 h2 => ?_⟩
  simp [jsGet, h1, h2, JSValue.truthy]

/-- Witness for C8's general clause at target `{}`, path `"z"`, default `7`. -/
theorem claimC8_default_fallback_witness :
    (travel (JSValue.vobj .nil) (splitDrop isDelimFirst "z") = JSValue.vundefined ∧
      travel (JSValue.vobj .nil) (splitDrop isDelimSecond "z") = JSValue.vundefined) ∧
    jsGet (JSValue.vobj .nil) "z" (JSValue.vnum 7) = JSValue.vnum 7 :=
  ⟨⟨by decide, by decide⟩,
    claimC8_default_fallback.2.2 (JSValue.vobj .nil) "z" (JSValue.vnum 7)
      (by decide) (by decide)⟩

/-- Claim C9 (empty-path write is a no-op, confirmed): for every
non-absent target (a nullish target is replaced by a fresh empty mapping per
spec section 4.1) and every value, `_update` with an empty key list returns
the target unchanged. -/
theorem claimC9_empty_path_noop (T V : JSValue) (h1 : T ≠ JSValue.vundefined)
    (h2 : T ≠ JSValue.vnull) : jsUpdate T (.inr []) V = some T := by
  simp [jsUpdate, coalesceRoot, h1, h2]

/-- Witness for C9 at `T = 5`, `V = "x"`. -/
theorem claimC9_empty_path_noop_witness :
    (JSValue.vnum 5 ≠ JSValue.vundefined) ∧
    jsUpdate (JSValue.vnum 5) (.inr []) (JSValue.vstr "x") = some (JSValue.vnum 5) :=
  ⟨by decide, claimC9_empty_path_noop (JSValue.vnum 5) (JSValue.vstr "x")
    (by decide) (by decide)⟩

/-! ## Lemmas on the read-or-write accessor -/

/-- A successful defined-argument invocation returns the accumulated key
chain, its result tree is a container, and walking the chain from the
updated node reads the written argument back. -/
theorem innerInvoke_write (rest : List String) :
    ∀ (prev : JSValue) (ks : List String) (lastKey : String) (arg y2 : JSValue)
      (res : ApplyRes),
    arg ≠ JSValue.vundefined →
    innerInvoke prev ks lastKey rest arg = some (y2, res) →
    res = ApplyRes.keys (ks ++ rest) ∧ y2.isContainer = true ∧
      travel y2 (lastKey :: rest) = arg := by
  induction rest with
  | nil =>
    intro prev ks lastKey arg y2 res harg hinv
    simp only [innerInvoke] at hinv
    rw [if_neg harg] at hinv
    split at hinv
    case isTrue hc =>
      simp only [Option.some.injEq, Prod.mk.injEq] at hinv
      obtain ⟨hy2, hres⟩ := hinv
      subst hy2
      subst hres
      have hy2c := isContainer_setProp hc lastKey arg
      refine ⟨by simp, hy2c, ?_⟩
      rw [travel_cons, if_neg (by simp [not_isNullish_of_isContainer hy2c]),
        getProp_setProp hc lastKey arg, travel_nil]
    case isFalse => exact absurd hinv (by simp)
  | cons prop rest2 ih =>
    intro prev ks lastKey arg y2 res harg hinv
    simp only [innerInvoke] at hinv
    split at hinv
    case isTrue => exact absurd hinv (by simp)
    case isFalse hnn =>
      split at hinv
      case isTrue hnul =>
        split at hinv
        case isTrue hc =>
          rw [Option.map_eq_some'] at hinv
          obtain ⟨⟨c, r⟩, hrec, heq⟩ := hinv
          obtain ⟨h1, h2, h3⟩ := ih _ _ _ _ _ _ harg hrec
          simp only [Prod.mk.injEq] at heq
          obtain ⟨hy2, hres⟩ := heq
          subst hy2
          subst hres
          have hy2c := isContainer_setProp hc lastKey c
          refine ⟨by simp [h1], hy2c, ?_⟩
          rw [travel_cons, if_neg (by simp [not_isNullish_of_isContainer hy2c]),
            getProp_setProp hc lastKey c]
          exact h3
        case isFalse => exact absurd hinv (by simp)
      case isFalse hnul =>
        have hc : prev.isContainer = true := by
          apply isContainer_of_getProp_not_nullish (k := lastKey)
          simpa using hnul
        rw [Option.map_eq_some'] at hinv
        obtain ⟨⟨c, r⟩, hrec, heq⟩ := hinv
        obtain ⟨h1, h2, h3⟩ := ih _ _ _ _ _ _ harg hrec
        simp only [Prod.mk.injEq] at heq
        obtain ⟨hy2, hres⟩ := heq
        subst hy2
        subst hres
        have hy2c := isContainer_setProp hc lastKey c
        refine ⟨by simp [h1], hy2c, ?_⟩
        rw [travel_cons, if_neg (by simp [not_isNullish_of_isContainer hy2c]),
          getProp_setProp hc lastKey c]
        exact h3

/-- A successful no-argument invocation mutates exactly as the property
accesses alone do (`captureGo`), and returns the value read at the recorded
chain in the resulting tree. -/
theorem innerInvoke_read (rest : List String) :
    ∀ (prev : JSValue) (ks : List String) (lastKey : String) (y2 : JSValue)
      (res : ApplyRes),
    innerInvoke prev ks lastKey rest JSValue.vundefined = some (y2, res) →
    captureGo prev lastKey rest = some y2 ∧
      res = ApplyRes.value (travel y2 (lastKey :: rest)) := by
  induction rest with
  | nil =>
    intro prev ks lastKey y2 res hinv
    simp only [innerInvoke, if_true] at hinv
    split at hinv
    case isTrue => exact absurd hinv (by simp)
    case isFalse hnn =>
      simp only [Option.some.injEq, Prod.mk.injEq] at hinv
      obtain ⟨hy2, hres⟩ := hinv
      subst hy2
      refine ⟨rfl, ?_⟩
      rw [travel_cons, if_neg hnn, travel_nil]
      exact hres.symm
  | cons prop rest2 ih =>
    intro prev ks lastKey y2 res hinv
    simp only [innerInvoke] at hinv
    split at hinv
    case isTrue => exact absurd hinv (by simp)
    case isFalse hnn =>
      split at hinv
      case isTrue hnul =>
        split at hinv
        case isTrue hc =>
          rw [Option.map_eq_some'] at hinv
          obtain ⟨⟨c, r⟩, hrec, heq⟩ := hinv
          obtain ⟨hcap, hres⟩ := ih _ _ _ _ _ hrec
          simp only [Prod.mk.injEq] at heq
          obtain ⟨hy2, hres2⟩ := heq
          subst hy2
          subst hres2
          have hy2c := isContainer_setProp hc lastKey c
          have htr : travel (setProp prev lastKey c) (lastKey :: prop :: rest2) =
              travel c (prop :: rest2) := by
            rw [travel_cons, if_neg (by simp [not_isNullish_of_isContainer hy2c]),
              getProp_setProp hc lastKey c]
          constructor
          · simp only [captureGo]
            rw [if_neg hnn, if_pos hnul, if_pos hc, hcap]
            rfl
          · rw [htr]
            exact hres
        case isFalse => exact absurd hinv (by simp)
      case isFalse hnul =>
        have hc : prev.isContainer = true := by
          apply isContainer_of_getProp_not_nullish (k := lastKey)
          simpa using hnul
        rw [Option.map_eq_some'] at hinv
        obtain ⟨⟨c, r⟩, hrec, heq⟩ := hinv
        obtain ⟨hcap, hres⟩ := ih _ _ _ _ _ hrec
        simp only [Prod.mk.injEq] at heq
        obtain ⟨hy2, hres2⟩ := heq
        subst hy2
        subst hres2
        have hy2c := isContainer_setProp hc lastKey c
        have htr : travel (setProp prev lastKey c) (lastKey :: prop :: rest2) =
            travel c (prop :: rest2) := by
          rw [travel_cons, if_neg (by simp [not_isNullish_of_isContainer hy2c]),
            getProp_setProp hc lastKey c]
        constructor
        · simp only [captureGo]
          rw [if_neg hnn, if_neg hnul, hcap]
          rfl
        · rw [htr]
          exact hres

/-- Claim C5 counterexample: over the bound structure `{a: 5}` the chain
`a.b` is captured fine (the `??=` keeps the non-nullish `5`), but invoking
with the defined argument `"x"` does not write it and return the chain as
the claim states — the assignment on the primitive `5` faults (strict-mode
`TypeError`, modelled as `none`). -/
theorem claimC5_counterexample :
    draftInvoke (JSValue.vobj (.cons "a" (JSValue.vnum 5) .nil)) ["a", "b"]
      (JSValue.vstr "x") = none := by decide

/-- Claim C5 (corrected): whenever a defined-argument invocation of the
read-or-write accessor succeeds (no non-container value obstructs the
recorded chain), it writes the argument at the chain — walking the chain in
the bound structure reads it back — and returns the key chain; a successful
no-argument invocation returns the current value at the chain and performs
no mutation beyond the placeholder containers the property accesses
themselves created. -/
theorem claimC5_read_or_write_duality :
    (∀ (y : JSValue) (k : String) (rest : List String) (arg y2 : JSValue)
        (res : ApplyRes),
      arg ≠ JSValue.vundefined →
      draftInvoke y (k :: rest) arg = some (y2, res) →
      res = ApplyRes.keys (k :: rest) ∧ travel y2 (k :: rest) = arg) ∧
    (∀ (y : JSValue) (k : String) (rest : List String) (y2 : JSValue)
        (res : ApplyRes),
      draftInvoke y (k :: rest) JSValue.vundefined = some (y2, res) →
      captureChain y (k :: rest) = some y2 ∧
      res = ApplyRes.value (travel y2 (k :: rest))) := by
  constructor
  · intro y k rest arg y2 res harg hinv
    obtain ⟨h1, _, h3⟩ := innerInvoke_write rest y [k] k arg y2 res harg hinv
    exact ⟨by simpa using h1, h3⟩
  · intro y k rest y2 res hinv
    exact innerInvoke_read rest y [k] k y2 res hinv

/-- Witness for C5's write half at seed `{}`, chain `["a"]`, argument
`"v"`. -/
theorem claimC5_read_or_write_duality_witness :
    (JSValue.vstr "v" ≠ JSValue.vundefined) ∧
    (ApplyRes.keys ["a"] = ApplyRes.keys ["a"] ∧
      travel (JSValue.vobj (.cons "a" (JSValue.vstr "v") .nil)) ["a"] = JSValue.vstr "v") :=
  ⟨by decide,
    claimC5_read_or_write_duality.1 (JSValue.vobj .nil) "a" [] (JSValue.vstr "v")
      (JSValue.vobj (.cons "a" (JSValue.vstr "v") .nil)) (ApplyRes.keys ["a"])
      (by decide) (by decide)⟩

/-! ## Agreement of the two writers -/

theorem getProp_empty_arr (k : String) :
    getProp (JSValue.varr .nil .nil) k = JSValue.vundefined := by
  by_cases h : isArrayIndex k = true <;> simp [getProp, h, getElem?, lookupField]

/-- On a fresh empty container the replace-primitives writer and the
`??=` writer coincide for every tail of keys. -/
theorem updateGo_eq_deepSetGo_empty (keys : List String) :
    ∀ (c v : JSValue), (c = JSValue.vobj .nil ∨ c = JSValue.varr .nil .nil) →
    updateGo c keys v = deepSetGo c keys v := by
  induction keys with
  | nil => intro c v _; rfl
  | cons k rest ih =>
    intro c v hc
    have hcont : c.isContainer = true := by
      rcases hc with h | h <;>
        simp [h, JSValue.isContainer, JSValue.isRecord, JSValue.isArray]
    have hprim : c.isPrim = false := by
      rw [isContainer_eq_not_isPrim] at hcont
      simpa using hcont
    cases rest with
    | nil => simp [updateGo, deepSetGo, hprim, hcont]
    | cons next rest2 =>
      have hg : getProp c k = JSValue.vundefined := by
        rcases hc with h | h <;> subst h
        · rfl
        · exact getProp_empty_arr k
      have hf : containerFor next = JSValue.vobj .nil ∨
          containerFor next = JSValue.varr .nil .nil := by
        by_cases hn : jsIsNumericString next <;> simp [containerFor, hn]
      have hu1 : JSValue.vundefined.isPrim = true := rfl
      have hu2 : JSValue.vundefined.isNullish = true := rfl
      simp [updateGo, deepSetGo, hprim, hcont, hg, hu1, hu2, ih _ v hf]

/-- Where no primitive non-nullish value obstructs the path, the immutable
traversal and the `??=` traversal produce the same result on the same
container. -/
theorem updateGo_eq_deepSetGo (keys : List String) :
    ∀ (t v : JSValue), t.isContainer = true → noPrimObstruction t keys = true →
    updateGo t keys v = deepSetGo t keys v := by
  induction keys with
  | nil => intro t v _ _; rfl
  | cons k rest ih =>
    intro t v hcont hobs
    have hprim : t.isPrim = false := by
      rw [isContainer_eq_not_isPrim] at hcont
      simpa using hcont
    cases rest with
    | nil => simp [updateGo, deepSetGo, hprim, hcont]
    | cons next rest2 =>
      simp only [noPrimObstruction] at hobs
      by_cases hnul : (getProp t k).isNullish = true
      · have hp : (getProp t k).isPrim = true := by
          cases hgp : getProp t k <;>
            simp_all [JSValue.isNullish, JSValue.isPrim, JSValue.isRecord, JSValue.isArray]
        have hf : containerFor next = JSValue.vobj .nil ∨
            containerFor next = JSValue.varr .nil .nil := by
          by_cases hn : jsIsNumericString next <;> simp [containerFor, hn]
        simp [updateGo, deepSetGo, hprim, hcont, hp, hnul,
          updateGo_eq_deepSetGo_empty _ _ v hf]
      · rw [if_neg hnul] at hobs
        simp only [Bool.and_eq_true] at hobs
        obtain ⟨hc0, hobs2⟩ := hobs
        have hp : (getProp t k).isPrim = false := by
          rw [isContainer_eq_not_isPrim] at hc0
          simpa using hc0
        have hnul2 : (getProp t k).isNullish = false := not_isNullish_of_isContainer hc0
        simp [updateGo, deepSetGo, hprim, hcont, hp, hnul2, ih _ v hc0 hobs2]

/-- A key produced by `deepSet`'s segment conversion is never empty. -/
theorem segKey_ne_empty : ∀ {s s2 : String}, segKey s = some s2 → s2 ≠ "" := by
  intro s s2 h
  unfold segKey at h
  split at h
  case isTrue hnum =>
    split at h
    case isTrue he =>
      simp only [Option.some.injEq] at h
      subst h
      decide
    case isFalse he =>
      split at h
      case h_1 n heq =>
        split at h
        case isTrue hcond =>
          simp only [Option.some.injEq] at h
          subst h
          exact he
        case isFalse => exact absurd h (by simp)
      case h_2 => exact absurd h (by simp)
  case isFalse hnum =>
    simp only [Option.some.injEq] at h
    subst h
    intro he
    subst he
    exact hnum (by decide)

/-- Every key list `deepSet` actually walks consists of nonempty keys. -/
theorem mapM_segKey_keys_ne_empty :
    ∀ (l l2 : List String), l.mapM segKey = some l2 → ∀ s2 ∈ l2, s2 ≠ "" := by
  intro l
  induction l with
  | nil =>
    intro l2 h s2 hs2
    simp only [List.mapM_nil, pure, Option.some.injEq] at h
    subst h
    simp at hs2
  | cons x xs ih =>
    intro l2 h s2 hs2
    rw [List.mapM_cons] at h
    simp only [Option.bind_eq_bind, Option.bind_eq_some, Option.pure_def,
      Option.some.injEq] at h
    obtain ⟨y, hy, ys, hys, hl2⟩ := h
    subst hl2
    rcases List.mem_cons.mp hs2 with h1 | h1
    · subst h1
      exact segKey_ne_empty hy
    · exact ih ys hys s2 h1

/-- Claim C10 counterexample: at target `{a: 5}`, path `"a.b"`, value `"x"`
the immutable `_update` replaces the `5` and yields `{a: {b: "x"}}`, while
the in-place `deepSet` keeps the `5` and faults on the assignment through it
(strict-mode `TypeError`, modelled as `none`) — the two variants disagree. -/
theorem claimC10_counterexample :
    jsUpdate (JSValue.vobj (.cons "a" (JSValue.vnum 5) .nil)) (.inl "a.b") (JSValue.vstr "x") =
      some (JSValue.vobj (.cons "a" (JSValue.vobj (.cons "b" (JSValue.vstr "x") .nil)) .nil)) ∧
    deepSet (JSValue.vobj (.cons "a" (JSValue.vnum 5) .nil)) "a.b" (JSValue.vstr "x") =
      none := by decide

/-- Claim C10 (corrected): `_update` and `deepSet` produce structurally equal
results for a dot-separated path on which the two splittings agree (each
segment nonempty, free of `.`/`[`/`]`, and preserved by `deepSet`'s numeric
conversion — stated through the two split functions), provided the root is a
container or absent and no primitive non-nullish value sits at an
intermediate step (which `_update` would replace but `deepSet` faults on). -/
theorem claimC10_write_variant_agreement (t : JSValue) (path : String)
    (segs : List String) (V : JSValue)
    (h1 : splitDrop isDelimCanon path = segs)
    (h2 : (dotSplit path).mapM segKey = some segs)
    (h3 : t = JSValue.vundefined ∨ t.isContainer = true)
    (hne : segs ≠ [])
    (h4 : noPrimObstruction (coalesceRoot t) segs = true) :
    jsUpdate t (.inl path) V = deepSet t path V := by
  have hroot : (if t = JSValue.vundefined then JSValue.vobj .nil else t) = coalesceRoot t := by
    rcases h3 with h | h
    · simp [h, coalesceRoot]
    · have h5 : t ≠ JSValue.vundefined := by
        intro e
        rw [e] at h
        exact absurd h (by decide)
      have h6 : t ≠ JSValue.vnull := by
        intro e
        rw [e] at h
        exact absurd h (by decide)
      simp [coalesceRoot, h5, h6]
  have hrc : (coalesceRoot t).isContainer = true := by
    rw [← hroot]
    rcases h3 with h | h
    · rw [h]
      decide
    · by_cases he : t = JSValue.vundefined
      · rw [if_pos he]
        decide
      · rw [if_neg he]
        exact h
  have hgl : segs.getLast? = some (segs.getLast hne) :=
    List.getLast?_eq_getLast_of_ne_nil hne
  have hlne : segs.getLast hne ≠ "" :=
    mapM_segKey_keys_ne_empty _ _ h2 _ (List.getLast_mem hne)
  have e1 : jsUpdate t (.inl path) V = updateGo (coalesceRoot t) segs V := by
    simp only [jsUpdate, h1, hgl]
    rw [if_neg hlne]
  have e2 : deepSet t path V = deepSetGo (coalesceRoot t) segs V := by
    simp only [deepSet, h2, hroot]
  rw [e1, e2]
  exact updateGo_eq_deepSetGo segs _ V hrc h4

/-- Witness for C10 at `t = {a: {}}`, path `"a.b"`, `V = 1`. -/
theorem claimC10_write_variant_agreement_witness :
    (splitDrop isDelimCanon "a.b" = ["a", "b"] ∧
      (dotSplit "a.b").mapM segKey = some ["a", "b"] ∧
      noPrimObstruction (coalesceRoot (JSValue.vobj (.cons "a" (JSValue.vobj .nil) .nil)))
        ["a", "b"] = true) ∧
    jsUpdate (JSValue.vobj (.cons "a" (JSValue.vobj .nil) .nil)) (.inl "a.b") (JSValue.vnum 1) =
      deepSet (JSValue.vobj (.cons "a" (JSValue.vobj .nil) .nil)) "a.b" (JSValue.vnum 1) :=
  ⟨⟨by decide, by decide, by decide⟩,
    claimC10_write_variant_agreement (JSValue.vobj (.cons "a" (JSValue.vobj .nil) .nil))
      "a.b" ["a", "b"] (JSValue.vnum 1) (by decide) (by decide)
      (Or.inr (by decide)) (by decide) (by decide)⟩

end Mobius
